import Mathlib

/-!
Shallow embedding of `src/main.rs` of svg2pdf: a batch converter that
renders every `.svg` file of a directory to a fixed 960×720 RGB raster
(in parallel, via rayon) and assembles the rasters into one PDF document
(via lopdf).  Machine integers of the source are modelled as `Nat`/`Int`
(none of the arithmetic involved can overflow: object counts, pixel
counts and dimensions are tiny compared to `u32`/`i64`/`usize` ranges),
and the `f32` scale factor is modelled as `ℚ` (the program performs no
arithmetic on it; it is only passed through to the renderer, and the
width/height values 960 and 720 are exactly representable in `f32`).
The external rasterizer (resvg) is modelled as an opaque per-file pixel
painter that writes into the fixed-size pixmap buffer, which is exactly
the freedom the real renderer has.
-/

namespace SvgToPdf

/-- A byte of raw data (value `0`–`255` in practice). -/
abbrev Byte := Nat

/- String literals of the source, named once. -/

def sSvg : String := "svg"

def sVersion : String := "1.5"

def sXObject : String := "XObject"

def sImage : String := "Image"

def sWidth : String := "Width"

def sHeight : String := "Height"

def sColorSpace : String := "ColorSpace"

def sDeviceRGB : String := "DeviceRGB"

def sBitsPerComponent : String := "BitsPerComponent"

def sType : String := "Type"

def sSubtype : String := "Subtype"

def sIm1 : String := "Im1"

def sPage : String := "Page"

def sParent : String := "Parent"

def sMediaBox : String := "MediaBox"

def sResources : String := "Resources"

def sContents : String := "Contents"

def sPages : String := "Pages"

def sCount : String := "Count"

def sKids : String := "Kids"

def sCatalog : String := "Catalog"

def sRoot : String := "Root"

def opSave : String := "q"

def opConcat : String := "cm"

def opPaint : String := "Do"

def opRestore : String := "Q"

/-- An RGBA pixel: the four bytes of one pixel of a tiny-skia pixmap. -/
structure Rgba where
  r : Byte
  g : Byte
  b : Byte
  a : Byte

/-- The four bytes of a pixel, in storage order. -/
def Rgba.toBytes (p : Rgba) : List Byte := [p.r, p.g, p.b, p.a]

/-- One directory entry considered by the program.  `readResult` models
the outcome of `fs::read` (`none` = read error), `parseOk` the outcome
of `usvg::Tree::from_data` on those bytes, `intrinsicWidth`/`Height`
the SVG's own size (`tree.size()` — bound but unused by `main`), and
`paint` the opaque resvg rasterizer: for a given uniform scale factor it
chooses the RGBA value of every pixel index of the fixed-size pixmap. -/
structure InputFile where
  name : String
  readResult : Option (List Byte)
  parseOk : Bool
  intrinsicWidth : Nat
  intrinsicHeight : Nat
  paint : ℚ → Nat → Rgba

/-- tiny-skia pixmap: a width × height buffer of RGBA bytes. -/
structure Pixmap where
  width : Nat
  height : Nat
  data : List Byte

/-- `Pixmap::new` fails on zero dimensions, otherwise yields a zeroed
buffer of `w * h * 4` bytes. -/
def Pixmap.new (w h : Nat) : Option Pixmap :=
  if w = 0 ∨ h = 0 then none
  else some { width := w, height := h, data := List.replicate (w * h * 4) 0 }

/-- `PixmapMut::fill`: every pixel becomes the given colour. -/
def Pixmap.fill (pm : Pixmap) (c : Rgba) : Pixmap :=
  { pm with data := (List.range (pm.width * pm.height)).flatMap (fun _ => c.toBytes) }

/-- A 2-D affine transform, as in `tiny_skia::Transform`. -/
structure Transform where
  sx : ℚ
  kx : ℚ
  ky : ℚ
  sy : ℚ
  tx : ℚ
  ty : ℚ

/-- `Transform::from_scale`. -/
def Transform.fromScale (sx sy : ℚ) : Transform :=
  { sx := sx, kx := 0, ky := 0, sy := sy, tx := 0, ty := 0 }

/-- `resvg::render`: draws the file's content over the pixmap.  It can
paint every pixel however the file's content dictates (here the opaque
`paint` field), but it writes into the existing buffer and can never
change the pixmap's dimensions or byte length. -/
def resvgRender (file : InputFile) (t : Transform) (pm : Pixmap) : Pixmap :=
  { pm with
    data := (List.range (pm.width * pm.height)).flatMap
      (fun i => (file.paint t.sx i).toBytes) }

/-- Rust `slice::chunks(4)`: split into consecutive chunks of four, the
last chunk possibly shorter. -/
def chunks4 : List Byte → List (List Byte)
  | [] => []
  | [a] => [[a]]
  | [a, b] => [[a, b]]
  | [a, b, c] => [[a, b, c]]
  | a :: b :: c :: d :: rest => [a, b, c, d] :: chunks4 rest

/-- `pixmap.data().chunks(4).flat_map(|chunk| chunk[0..3].to_vec())`:
drop the alpha byte of every RGBA pixel.  (The source slices `[0..3]`,
which agrees with `take 3` on every chunk of length ≥ 3; pixmap buffers
always have length divisible by 4, so no shorter chunk ever occurs.) -/
def rgbFromRgba (data : List Byte) : List Byte :=
  (chunks4 data).flatMap (fun chunk => chunk.take 3)

/-- `PageData` of the source: one rendered page. -/
structure PageData where
  index : Nat
  width : Nat
  height : Nat
  rgb_data : List Byte

/-- The errors a single render task can produce (`anyhow` contexts of
lines 88–101; the read and parse contexts carry the file's path). -/
inductive RenderError where
  | readError (file : String)
  | parseError (file : String)
  | allocError
deriving DecidableEq, Repr

/-- The file a render error names in its diagnostic context. -/
def RenderError.file : RenderError → Option String
  | .readError f => some f
  | .parseError f => some f
  | .allocError => none

/-- The render closure of `main` (lines 83–132): read the file, parse
it, create a 960×720 pixmap, fill it white, render with the uniform
scale transform, and strip the alpha channel.  The parsed tree's own
size (`tree.size()`) is bound but never used: the raster dimensions are
the constants 960 and 720. -/
def renderEntry (scale : ℚ) (index : Nat) (entry : InputFile) :
    Except RenderError PageData :=
  match entry.readResult with
  | none => .error (.readError entry.name)
  | some _svg_data =>
    if entry.parseOk then
      let width := 960
      let height := 720
      match Pixmap.new width height with
      | none => .error .allocError
      | some pixmap =>
        let pixmap := pixmap.fill ⟨255, 255, 255, 255⟩
        let transform := Transform.fromScale scale scale
        let pixmap := resvgRender entry transform pixmap
        let rgb_data := rgbFromRgba pixmap.data
        .ok { index := index, width := width, height := height, rgb_data := rgb_data }
    else .error (.parseError entry.name)

/-- The value each parallel task computes: task `i` renders entry `i`.
(`entries.par_iter().enumerate().map(...)`.) -/
def renderResults (scale : ℚ) (entries : List InputFile) :
    List (Except RenderError PageData) :=
  entries.enum.map (fun p => renderEntry scale p.1 p.2)

/-- The first error encountered when tasks complete in the given order
(rayon may observe failures in any completion order). -/
def firstErrorIn (order : List Nat) (results : List (Except RenderError PageData)) :
    Option RenderError :=
  order.findSome? (fun i =>
    match results.get? i with
    | some (.error e) => some e
    | _ => none)

/-- Sequence the per-index results, failing on the first error in index
order. -/
def sequenceResults : List (Except RenderError PageData) →
    Except RenderError (List PageData)
  | [] => .ok []
  | .error e :: _ => .error e
  | .ok p :: rest => (sequenceResults rest).map (fun ps => p :: ps)

/-- rayon's `collect::<Result<Vec<_>>>()` on an indexed parallel
iterator: if every task succeeds the vector holds the results in
original index order, whatever the completion order was; otherwise some
failing task's error is returned (modelled as the first failure in
completion order, falling back to index order). -/
def collectOrdered (order : List Nat)
    (results : List (Except RenderError PageData)) :
    Except RenderError (List PageData) :=
  match firstErrorIn order results with
  | some e => .error e
  | none => sequenceResults results

/-- The characters after the last dot of a file name, when one exists. -/
def afterLastDot : List Char → Option (List Char)
  | [] => none
  | '.' :: rest => some ((afterLastDot rest).getD rest)
  | _ :: rest => afterLastDot rest

/-- Rust `Path::extension` on a plain file name: `none` when there is
no dot, or when the only dot is the leading character of the name;
otherwise the (possibly empty) part after the last dot. -/
def extension (name : String) : Option String :=
  match name.toList with
  | [] => none
  | c :: rest =>
    (afterLastDot (if c = '.' then rest else c :: rest)).map (fun cs => String.mk cs)

/-- `str::to_lowercase`, modelled as per-character lowercasing (for the
comparison against the ASCII literal `"svg"` the two agree: a string
lowercases to `"svg"` exactly when it is `svg` in any letter case). -/
def strLower (s : String) : String :=
  String.mk (s.toList.map Char.toLower)

/-- The filter closure of lines 56–63:
`path.extension().and_then(to_str).map(|e| e.to_lowercase() == "svg").unwrap_or(false)`.
(A non-UTF-8 extension makes `to_str` fail and the filter yield `false`
in Rust, just like any extension different from `svg`; Lean strings are
always valid Unicode, so that branch needs no separate model.) -/
def hasSvgExtension (name : String) : Bool :=
  match extension name with
  | some ext => strLower ext == sSvg
  | none => false

/-- An I/O error of directory enumeration or of a single entry. -/
structure IoErr where
  msg : String
deriving DecidableEq, Repr

/-- Lines 54–64: `fs::read_dir(..)` yields a sequence of per-entry
results; `.filter_map(|entry| entry.ok())` silently drops the failed
entries, and the extension filter keeps only `.svg` files. -/
def enumerateSvgs (listing : List (Except IoErr InputFile)) : List InputFile :=
  (listing.filterMap (fun r => r.toOption)).filter
    (fun entry => hasSvgExtension entry.name)

/-- The fragment of `lopdf::Object` the program uses. -/
inductive PdfObject where
  | name (s : String)
  | integer (i : Int)
  | real (r : ℚ)
  | reference (id : Nat)
  | array (elems : List PdfObject)
  | dict (entries : List (String × PdfObject))
  | stream (sdict : List (String × PdfObject)) (data : List Byte)

/-- One content-stream operation (`lopdf::content::Operation`). -/
structure Operation where
  operator : String
  operands : List PdfObject

/-- Operand printer used by the content-stream encoder (only the operand
shapes this program emits). -/
def encodeOperand : PdfObject → String
  | .name s => "/" ++ s
  | .integer i => toString i
  | .real r => toString r
  | _ => ""

/-- One encoded operation: its operands, then its operator. -/
def encodeOp (op : Operation) : String :=
  String.join (op.operands.map (fun o => encodeOperand o ++ " ")) ++ op.operator ++ "\n"

/-- `Content::encode`: the byte serialization of an operation list. -/
def encodeContent (ops : List Operation) : List Byte :=
  (String.join (ops.map encodeOp)).toList.map Char.toNat

/-- `lopdf::Document`, reduced to what the program touches: the
monotone id counter `max_id`, the object table, and the trailer.
(lopdf ids are `(u32, u16)` pairs with generation 0 throughout; the
generation is dropped.) -/
structure Document where
  version : String
  maxId : Nat
  objects : List (Nat × PdfObject)
  trailer : List (String × PdfObject)

/-- Key-ordered-insert into the object table (lopdf's `BTreeMap::insert`:
replace the value of an existing key, otherwise add the binding; as an
association list, the new binding goes at the end). -/
def insertObj : List (Nat × PdfObject) → Nat → PdfObject → List (Nat × PdfObject)
  | [], id, o => [(id, o)]
  | (k, v) :: rest, id, o =>
    if k = id then (id, o) :: rest else (k, v) :: insertObj rest id o

/-- `Dictionary::set` on the trailer. -/
def setKey : List (String × PdfObject) → String → PdfObject → List (String × PdfObject)
  | [], key, o => [(key, o)]
  | (k, v) :: rest, key, o =>
    if k = key then (key, o) :: rest else (k, v) :: setKey rest key o

/-- Lookup in the object table. -/
def lookupObj : List (Nat × PdfObject) → Nat → Option PdfObject
  | [], _ => none
  | (k, v) :: rest, id => if k = id then some v else lookupObj rest id

/-- Lookup in a dictionary. -/
def lookupKey : List (String × PdfObject) → String → Option PdfObject
  | [], _ => none
  | (k, v) :: rest, key => if k = key then some v else lookupKey rest key

/-- `Document::with_version`. -/
def Document.withVersion (v : String) : Document :=
  { version := v, maxId := 0, objects := [], trailer := [] }

/-- `Document::new_object_id`: bump `max_id` and hand out the fresh id
without inserting anything. -/
def Document.newObjectId (d : Document) : Nat × Document :=
  (d.maxId + 1, { d with maxId := d.maxId + 1 })

/-- `Document::add_object`: bump `max_id`, insert under the fresh id. -/
def Document.addObject (d : Document) (o : PdfObject) : Nat × Document :=
  (d.maxId + 1,
   { d with maxId := d.maxId + 1, objects := insertObj d.objects (d.maxId + 1) o })

/-- The image XObject dictionary of one page (lines 145–152). -/
def imageDict (page : PageData) : List (String × PdfObject) :=
  [(sType, .name sXObject), (sSubtype, .name sImage),
   (sWidth, .integer page.width), (sHeight, .integer page.height),
   (sColorSpace, .name sDeviceRGB), (sBitsPerComponent, .integer 8)]

/-- The four content operations of one page (lines 159–174); the `cm`
operands are the page's width and height (960 and 720 in every run,
both exact in `f32`). -/
def contentOperations (page : PageData) : List Operation :=
  [ { operator := opSave, operands := [] },
    { operator := opConcat,
      operands := [.real page.width, .real 0, .real 0,
                   .real page.height, .real 0, .real 0] },
    { operator := opPaint, operands := [.name sIm1] },
    { operator := opRestore, operands := [] } ]

/-- The per-page XObject name map (line 184): the single name `Im1`. -/
def xobjectsDict (imageRef : Nat) : List (String × PdfObject) :=
  [(sIm1, .reference imageRef)]

/-- The per-page resources dictionary (line 186). -/
def resourcesDict (imageRef : Nat) : List (String × PdfObject) :=
  [(sXObject, .dict (xobjectsDict imageRef))]

/-- The page dictionary (lines 190–204). -/
def pageDict (pagesId : Nat) (page : PageData) (resourcesId contentId : Nat) :
    List (String × PdfObject) :=
  [(sType, .name sPage),
   (sParent, .reference pagesId),
   (sMediaBox, .array [.integer 0, .integer 0,
                       .integer page.width, .integer page.height]),
   (sResources, .reference resourcesId),
   (sContents, .reference contentId)]

/-- The loop body of lines 143–207: allocate, for one page, the image
stream, the content stream, the resources dictionary and the page
dictionary, in that order, returning the page dictionary's id. -/
def buildPage (pagesId : Nat) (doc : Document) (page : PageData) : Nat × Document :=
  let (imageRef, doc1) := doc.addObject (.stream (imageDict page) page.rgb_data)
  let (contentId, doc2) :=
    doc1.addObject (.stream [] (encodeContent (contentOperations page)))
  let (resourcesId, doc3) := doc2.addObject (.dict (resourcesDict imageRef))
  let (pageId, doc4) :=
    doc3.addObject (.dict (pageDict pagesId page resourcesId contentId))
  (pageId, doc4)

/-- The whole `for page in rendered_pages.iter()` loop, collecting
`page_ids` in order. -/
def buildPages (pagesId : Nat) (doc : Document) :
    List PageData → List Nat × Document
  | [] => ([], doc)
  | page :: rest =>
    let (pid, doc1) := buildPage pagesId doc page
    let (pids, doc2) := buildPages pagesId doc1 rest
    (pid :: pids, doc2)

/-- The page-tree dictionary (lines 210–214). -/
def pagesDict (pageIds : List Nat) : List (String × PdfObject) :=
  [(sType, .name sPages),
   (sCount, .integer pageIds.length),
   (sKids, .array (pageIds.map PdfObject.reference))]

/-- The catalog dictionary (lines 218–221). -/
def catalogDict (pagesId : Nat) : List (String × PdfObject) :=
  [(sType, .name sCatalog), (sPages, .reference pagesId)]

/-- Lines 138–223: create the document, reserve the page-tree id before
any page exists, build every page (each back-referencing the tree),
fill in the page tree with the collected kid ids and their count,
add the catalog, and point the trailer's `Root` at it. -/
def assemble (pages : List PageData) : Document :=
  let doc := Document.withVersion sVersion
  let (pagesId, doc) := doc.newObjectId
  let (pageIds, doc) := buildPages pagesId doc pages
  let doc := { doc with objects := insertObj doc.objects pagesId (.dict (pagesDict pageIds)) }
  let (catalogId, doc) := doc.addObject (.dict (catalogDict pagesId))
  { doc with trailer := setKey doc.trailer sRoot (.reference catalogId) }

/-- Errors `main` can exit with. -/
inductive MainError where
  | ioError (msg : String)
  | emptyInput
  | render (e : RenderError)
  | saveError
deriving DecidableEq, Repr

/-- The inputs an execution of `main` depends on: the directory listing
(`fs::read_dir` outcome, then one result per entry), the scale option,
the order in which the parallel tasks happen to complete, and whether
`doc.save` succeeds. -/
structure RunInput where
  listing : Except IoErr (List (Except IoErr InputFile))
  scale : ℚ
  order : List Nat
  saveOk : Bool

/-- The observable outcome of `main`: the exit result, the document
written to the output path (if any), and the files handed to the render
stage (an upper bound: on an aborted batch rayon may skip some). -/
structure RunResult where
  exit : Except MainError Unit
  written : Option Document
  renderedInputs : List String

/-- `main` (lines 41–229): enumerate and filter the directory, bail on
an empty set before anything is rendered or built, render all entries in
parallel, assemble the document, and save it. -/
def run (inp : RunInput) : RunResult :=
  match inp.listing with
  | .error e => { exit := .error (.ioError e.msg), written := none, renderedInputs := [] }
  | .ok listing =>
    let entries := enumerateSvgs listing
    if entries.isEmpty then
      { exit := .error .emptyInput, written := none, renderedInputs := [] }
    else
      match collectOrdered inp.order (renderResults inp.scale entries) with
      | .error e =>
        { exit := .error (.render e), written := none,
          renderedInputs := entries.map (fun f => f.name) }
      | .ok pages =>
        let doc := assemble pages
        if inp.saveOk then
          { exit := .ok (), written := some doc,
            renderedInputs := entries.map (fun f => f.name) }
        else
          { exit := .error .saveError, written := none,
            renderedInputs := entries.map (fun f => f.name) }

/-! ### Observations on the object graph -/

mutual

/-- Every object id referenced inside an object. -/
def refsOfObject : PdfObject → List Nat
  | .name _ => []
  | .integer _ => []
  | .real _ => []
  | .reference id => [id]
  | .array elems => refsOfList elems
  | .dict entries => refsOfEntries entries
  | .stream sdict _ => refsOfEntries sdict

/-- References of a list of objects. -/
def refsOfList : List PdfObject → List Nat
  | [] => []
  | o :: rest => refsOfObject o ++ refsOfList rest

/-- References of a dictionary's entries. -/
def refsOfEntries : List (String × PdfObject) → List Nat
  | [] => []
  | (_, o) :: rest => refsOfObject o ++ refsOfEntries rest

end

/-- The keys of the object table. -/
def keysOf (objs : List (Nat × PdfObject)) : List Nat :=
  objs.map (fun p => p.1)

/-- Every reference occurring anywhere in the document: in the trailer
or in any stored object. -/
def docRefs (d : Document) : List Nat :=
  refsOfEntries d.trailer ++ (d.objects.map (fun p => refsOfObject p.2)).flatten

/-- The page order a PDF reader sees: follow the trailer's `Root` to the
catalog, its `Pages` to the page tree, and read the `Kids` array. -/
def pageTreeKids (d : Document) : Option (List PdfObject) :=
  match lookupKey d.trailer sRoot with
  | some (.reference rootId) =>
    match lookupObj d.objects rootId with
    | some (.dict cat) =>
      match lookupKey cat sPages with
      | some (.reference treeId) =>
        match lookupObj d.objects treeId with
        | some (.dict tree) =>
          match lookupKey tree sKids with
          | some (.array ks) => some ks
          | _ => none
        | _ => none
      | _ => none
    | _ => none
  | _ => none

/-- How many entries of a dictionary carry a given key. -/
def countKey (entries : List (String × PdfObject)) (key : String) : Nat :=
  (entries.filter (fun p => p.1 == key)).length

/-- The image names a resources dictionary exposes to the content
stream (the keys of its `XObject` subdictionary). -/
def imageNamesOf (resources : List (String × PdfObject)) : List String :=
  match lookupKey resources sXObject with
  | some (.dict xs) => xs.map (fun p => p.1)
  | _ => []

/-- The names painted by a content stream's `Do` instructions. -/
def paintedNames (ops : List Operation) : List String :=
  ops.filterMap (fun op =>
    if op.operator == opPaint then
      match op.operands with
      | [.name nm] => some nm
      | _ => none
    else none)

/-! ### Closed form of the assembled document -/

/-- The four objects `buildPage` adds when the id counter stands at `m`. -/
def pageBlock (pagesId m : Nat) (page : PageData) : List (Nat × PdfObject) :=
  [ (m + 1, .stream (imageDict page) page.rgb_data),
    (m + 2, .stream [] (encodeContent (contentOperations page))),
    (m + 3, .dict (resourcesDict (m + 1))),
    (m + 4, .dict (pageDict pagesId page (m + 3) (m + 2))) ]

/-- The objects `buildPages` adds from counter value `m` on. -/
def pagesBlocks (pagesId m : Nat) : List PageData → List (Nat × PdfObject)
  | [] => []
  | p :: rest => pageBlock pagesId m p ++ pagesBlocks pagesId (m + 4) rest

/-- The page-dictionary ids issued from counter value `m` for `n` pages. -/
def pageIdsFrom (m n : Nat) : List Nat :=
  (List.range n).map (fun k => m + 4 * k + 4)

/-- The four object ids belonging to page `k` of the assembled document:
image, content stream, resources, page dictionary. -/
def pageObjectIds (k : Nat) : List Nat :=
  [4 * k + 2, 4 * k + 3, 4 * k + 4, 4 * k + 5]

/-- The assembled document, in closed form. -/
def assembled (pages : List PageData) : Document :=
  { version := sVersion,
    maxId := 4 * pages.length + 2,
    objects := pagesBlocks 1 1 pages
      ++ [(1, .dict (pagesDict (pageIdsFrom 1 pages.length)))]
      ++ [(4 * pages.length + 2, .dict (catalogDict 1))],
    trailer := [(sRoot, .reference (4 * pages.length + 2))] }

/-! ### Helper lemmas: the object table -/

theorem keysOf_append (l1 l2 : List (Nat × PdfObject)) :
    keysOf (l1 ++ l2) = keysOf l1 ++ keysOf l2 :=
  List.map_append _ _ _

theorem insertObj_of_not_mem (o : PdfObject) :
    ∀ {objs : List (Nat × PdfObject)} {id : Nat}, id ∉ keysOf objs →
      insertObj objs id o = objs ++ [(id, o)] := by
  intro objs
  induction objs with
  | nil => intro id _; rfl
  | cons p rest ih =>
    obtain ⟨k, v⟩ := p
    intro id h
    simp only [keysOf, List.map_cons, List.mem_cons, not_or] at h
    have hne : ¬ (k = id) := fun hh => h.1 hh.symm
    simp only [insertObj, if_neg hne, List.cons_append, List.cons.injEq, true_and]
    exact ih h.2

theorem lookupObj_append_of_not_mem :
    ∀ {l1 : List (Nat × PdfObject)} (l2 : List (Nat × PdfObject)) {id : Nat},
      id ∉ keysOf l1 → lookupObj (l1 ++ l2) id = lookupObj l2 id := by
  intro l1
  induction l1 with
  | nil => intro l2 id _; rfl
  | cons p rest ih =>
    obtain ⟨k, v⟩ := p
    intro l2 id h
    simp only [keysOf, List.map_cons, List.mem_cons, not_or] at h
    have hne : ¬ (k = id) := fun hh => h.1 hh.symm
    simp only [List.cons_append, lookupObj, if_neg hne]
    exact ih l2 h.2

theorem lookupObj_append_left :
    ∀ {l1 : List (Nat × PdfObject)} (l2 : List (Nat × PdfObject)) {id : Nat},
      (lookupObj l1 id).isSome = true →
      lookupObj (l1 ++ l2) id = lookupObj l1 id := by
  intro l1
  induction l1 with
  | nil => intro l2 id h; simp [lookupObj] at h
  | cons p rest ih =>
    obtain ⟨k, v⟩ := p
    intro l2 id h
    by_cases hk : k = id
    · simp [lookupObj, hk]
    · simp only [lookupObj, if_neg hk] at h
      simp only [List.cons_append, lookupObj, if_neg hk]
      exact ih l2 h

theorem lookupObj_isSome_of_mem :
    ∀ {objs : List (Nat × PdfObject)} {id : Nat}, id ∈ keysOf objs →
      (lookupObj objs id).isSome = true := by
  intro objs
  induction objs with
  | nil => intro id h; simp [keysOf] at h
  | cons p rest ih =>
    obtain ⟨k, v⟩ := p
    intro id h
    simp only [keysOf, List.map_cons, List.mem_cons] at h
    by_cases hk : k = id
    · simp [lookupObj, hk]
    · rcases h with h | h
      · exact absurd h.symm hk
      · simpa [lookupObj, hk] using ih h

/-- All keys of the object table are at most the id counter: the
freshness invariant `lopdf` maintains. -/
def keysLe (doc : Document) : Prop :=
  ∀ k ∈ keysOf doc.objects, k ≤ doc.maxId

theorem addObject_closed (doc : Document) (o : PdfObject) (hk : keysLe doc) :
    doc.addObject o =
      (doc.maxId + 1,
       { doc with maxId := doc.maxId + 1,
                  objects := doc.objects ++ [(doc.maxId + 1, o)] }) := by
  unfold Document.addObject
  rw [insertObj_of_not_mem o (fun h => absurd (hk _ h) (by omega))]

theorem keysLe_after_add (doc : Document) (o : PdfObject) (hk : keysLe doc) :
    keysLe { doc with maxId := doc.maxId + 1,
                      objects := doc.objects ++ [(doc.maxId + 1, o)] } := by
  obtain ⟨ver, m, objs, tr⟩ := doc
  have hk' : ∀ k ∈ keysOf objs, k ≤ m := hk
  intro k h
  replace h : k ∈ keysOf (objs ++ [(m + 1, o)]) := h
  show k ≤ m + 1
  rw [keysOf_append, List.mem_append] at h
  rcases h with h | h
  · exact le_trans (hk' _ h) (by omega)
  · simp [keysOf] at h
    omega

/-! ### Closed form of `buildPage`, `buildPages`, `assemble` -/

theorem buildPage_closed (pagesId : Nat) (doc : Document) (page : PageData)
    (hk : keysLe doc) :
    buildPage pagesId doc page =
      (doc.maxId + 4,
       { doc with maxId := doc.maxId + 4,
                  objects := doc.objects ++ pageBlock pagesId doc.maxId page }) := by
  obtain ⟨ver, m, objs, tr⟩ := doc
  simp only [keysLe] at hk
  have h1 : m + 1 ∉ keysOf objs := fun h => absurd (hk _ h) (by omega)
  have h2 : ∀ o1, m + 1 + 1 ∉ keysOf (objs ++ [(m + 1, o1)]) := by
    intro o1 h
    rw [keysOf_append, List.mem_append] at h
    rcases h with h | h
    · exact absurd (hk _ h) (by omega)
    · simp [keysOf] at h
  have h3 : ∀ o1 o2, m + 1 + 1 + 1 ∉ keysOf (objs ++ [(m + 1, o1), (m + 1 + 1, o2)]) := by
    intro o1 o2 h
    rw [keysOf_append, List.mem_append] at h
    rcases h with h | h
    · exact absurd (hk _ h) (by omega)
    · simp [keysOf] at h
      omega
  have h4 : ∀ o1 o2 o3, m + 1 + 1 + 1 + 1 ∉
      keysOf (objs ++ [(m + 1, o1), (m + 1 + 1, o2), (m + 1 + 1 + 1, o3)]) := by
    intro o1 o2 o3 h
    rw [keysOf_append, List.mem_append] at h
    rcases h with h | h
    · exact absurd (hk _ h) (by omega)
    · simp [keysOf] at h
      omega
  simp only [buildPage, Document.addObject, insertObj_of_not_mem _ h1,
    insertObj_of_not_mem _ (h2 _), insertObj_of_not_mem _ (h3 _ _),
    insertObj_of_not_mem _ (h4 _ _ _), pageBlock,
    List.append_assoc, List.cons_append, List.nil_append, List.singleton_append]

theorem keysLe_after_buildPage (pagesId : Nat) (doc : Document) (page : PageData)
    (hk : keysLe doc) :
    keysLe { doc with maxId := doc.maxId + 4,
                      objects := doc.objects ++ pageBlock pagesId doc.maxId page } := by
  obtain ⟨ver, m, objs, tr⟩ := doc
  have hk' : ∀ k ∈ keysOf objs, k ≤ m := hk
  intro k h
  replace h : k ∈ keysOf (objs ++ pageBlock pagesId m page) := h
  show k ≤ m + 4
  rw [keysOf_append, List.mem_append] at h
  rcases h with h | h
  · exact le_trans (hk' _ h) (by omega)
  · simp [pageBlock, keysOf] at h
    omega

theorem pageIdsFrom_succ (m n : Nat) :
    pageIdsFrom m (n + 1) = (m + 4) :: pageIdsFrom (m + 4) n := by
  unfold pageIdsFrom
  rw [List.range_succ_eq_map, List.map_cons, List.map_map]
  refine congrArg₂ _ (by simp) (List.map_congr_left (fun k _ => ?_))
  simp only [Function.comp_apply]
  omega

theorem buildPages_closed (pagesId : Nat) (ps : List PageData) :
    ∀ (doc : Document), keysLe doc →
      buildPages pagesId doc ps =
        (pageIdsFrom doc.maxId ps.length,
         { doc with maxId := doc.maxId + 4 * ps.length,
                    objects := doc.objects ++ pagesBlocks pagesId doc.maxId ps }) := by
  induction ps with
  | nil =>
    intro doc hk
    simp [buildPages, pageIdsFrom, pagesBlocks]
  | cons p rest ih =>
    intro doc hk
    obtain ⟨ver, m, objs, tr⟩ := doc
    simp only [buildPages, buildPage_closed pagesId ⟨ver, m, objs, tr⟩ p hk,
      ih _ (keysLe_after_buildPage pagesId ⟨ver, m, objs, tr⟩ p hk)]
    rw [List.length_cons, pageIdsFrom_succ]
    have hm : m + 4 + 4 * rest.length = m + 4 * (rest.length + 1) := by omega
    rw [hm]
    simp [pagesBlocks, List.append_assoc]

theorem mem_keysOf_pagesBlocks {pid : Nat} (ps : List PageData) :
    ∀ (m k : Nat),
      (k ∈ keysOf (pagesBlocks pid m ps) ↔ m + 1 ≤ k ∧ k ≤ m + 4 * ps.length) := by
  induction ps with
  | nil =>
    intro m k
    constructor
    · intro h
      simp [pagesBlocks, keysOf] at h
    · intro h
      simp only [pagesBlocks, keysOf, List.map_nil, List.not_mem_nil]
      simp only [List.length_nil] at h
      omega
  | cons p rest ih =>
    intro m k
    rw [pagesBlocks, keysOf_append, List.mem_append, ih (m + 4) k]
    simp only [pageBlock, keysOf, List.map_cons, List.map_nil, List.mem_cons,
      List.not_mem_nil, or_false, List.length_cons]
    omega

theorem assemble_closed (pages : List PageData) : assemble pages = assembled pages := by
  have hk0 : keysLe { version := sVersion, maxId := 1, objects := [], trailer := [] } := by
    intro k h
    simp [keysOf] at h
  have hb := buildPages_closed 1 pages
    { version := sVersion, maxId := 1, objects := [], trailer := [] } hk0
  have hone : (1 : Nat) ∉ keysOf (pagesBlocks 1 1 pages) := by
    rw [mem_keysOf_pagesBlocks pages 1 1]
    omega
  have hk2 : keysLe
      { version := sVersion, maxId := 1 + 4 * pages.length,
        objects := pagesBlocks 1 1 pages
          ++ [(1, .dict (pagesDict (pageIdsFrom 1 pages.length)))],
        trailer := [] } := by
    intro k h
    show k ≤ 1 + 4 * pages.length
    replace h : k ∈ keysOf (pagesBlocks 1 1 pages
      ++ [(1, PdfObject.dict (pagesDict (pageIdsFrom 1 pages.length)))]) := h
    rw [keysOf_append, List.mem_append] at h
    rcases h with h | h
    · rw [mem_keysOf_pagesBlocks pages 1 k] at h
      omega
    · simp [keysOf] at h
      omega
  have hcat := addObject_closed
    { version := sVersion, maxId := 1 + 4 * pages.length,
      objects := pagesBlocks 1 1 pages
        ++ [(1, .dict (pagesDict (pageIdsFrom 1 pages.length)))],
      trailer := [] } (.dict (catalogDict 1)) hk2
  simp only [assemble, Document.withVersion, Document.newObjectId, Nat.zero_add]
  rw [hb]
  simp only [List.nil_append]
  rw [insertObj_of_not_mem _ hone]
  rw [hcat]
  simp only [assembled, setKey]
  have hid : 1 + 4 * pages.length + 1 = 4 * pages.length + 2 := by omega
  rw [hid]

/-! ### Lookups in the assembled document -/

theorem lookup_pagesBlocks (pid : Nat) (ps : List PageData) :
    ∀ (m k : Nat) (hk : k < ps.length),
      lookupObj (pagesBlocks pid m ps) (m + 4 * k + 1) =
        some (.stream (imageDict (ps.get ⟨k, hk⟩)) (ps.get ⟨k, hk⟩).rgb_data) ∧
      lookupObj (pagesBlocks pid m ps) (m + 4 * k + 2) =
        some (.stream [] (encodeContent (contentOperations (ps.get ⟨k, hk⟩)))) ∧
      lookupObj (pagesBlocks pid m ps) (m + 4 * k + 3) =
        some (.dict (resourcesDict (m + 4 * k + 1))) ∧
      lookupObj (pagesBlocks pid m ps) (m + 4 * k + 4) =
        some (.dict (pageDict pid (ps.get ⟨k, hk⟩) (m + 4 * k + 3) (m + 4 * k + 2))) := by
  induction ps with
  | nil =>
    intro m k hk
    exact absurd hk (by simp)
  | cons p rest ih =>
    intro m k hk
    cases k with
    | zero =>
      simp only [Nat.mul_zero, Nat.add_zero, pagesBlocks, pageBlock,
        List.cons_append, List.nil_append, List.get]
      refine ⟨?_, ?_, ?_, ?_⟩ <;>
        simp [lookupObj, Nat.add_left_cancel_iff]
    | succ k =>
      have hk' : k < rest.length := by
        simpa using Nat.lt_of_succ_lt_succ hk
      have hskip : ∀ j, 1 ≤ j → m + 4 * (k + 1) + j ∉ keysOf (pageBlock pid m p) := by
        intro j hj hmem
        simp [pageBlock, keysOf] at hmem
        omega
      have harith : ∀ j : Nat, m + 4 * (k + 1) + j = m + 4 + 4 * k + j := by
        intro j
        omega
      have hres := ih (m + 4) k hk'
      have hget : (p :: rest).get ⟨k + 1, hk⟩ = rest.get ⟨k, hk'⟩ := rfl
      refine ⟨?_, ?_, ?_, ?_⟩ <;>
        rw [pagesBlocks] <;>
        [rw [lookupObj_append_of_not_mem _ (hskip 1 (by omega)), harith 1];
         rw [lookupObj_append_of_not_mem _ (hskip 2 (by omega)), harith 2];
         rw [lookupObj_append_of_not_mem _ (hskip 3 (by omega)), harith 3];
         rw [lookupObj_append_of_not_mem _ (hskip 4 (by omega)), harith 4]]
      · rw [hget]
        exact hres.1
      · rw [hget]
        exact hres.2.1
      · rw [hres.2.2.1, harith 1]
      · rw [hget, hres.2.2.2, harith 3, harith 2]

theorem length_pageIdsFrom (m n : Nat) : (pageIdsFrom m n).length = n := by
  simp [pageIdsFrom]

theorem mem_pageIdsFrom {m n r : Nat} :
    r ∈ pageIdsFrom m n ↔ ∃ k, k < n ∧ r = m + 4 * k + 4 := by
  simp only [pageIdsFrom, List.mem_map, List.mem_range]
  constructor
  · rintro ⟨k, hk, rfl⟩
    exact ⟨k, hk, rfl⟩
  · rintro ⟨k, hk, rfl⟩
    exact ⟨k, hk, rfl⟩

theorem getElem?_pageIdsFrom (m n k : Nat) (hk : k < n) :
    (pageIdsFrom m n).get? k = some (m + 4 * k + 4) := by
  simp [pageIdsFrom, List.get?_eq_getElem?, hk]

theorem mem_keysOf_assembled (pages : List PageData) (k : Nat) :
    k ∈ keysOf (assembled pages).objects ↔
      (k ∈ keysOf (pagesBlocks 1 1 pages) ∨ k = 1 ∨ k = 4 * pages.length + 2) := by
  have h : (assembled pages).objects = pagesBlocks 1 1 pages
      ++ [(1, PdfObject.dict (pagesDict (pageIdsFrom 1 pages.length)))]
      ++ [(4 * pages.length + 2, PdfObject.dict (catalogDict 1))] := rfl
  rw [h, keysOf_append, keysOf_append, List.mem_append, List.mem_append]
  simp [keysOf, or_assoc]

theorem not_mem_pagesBlocks_tree (pages : List PageData) :
    (1 : Nat) ∉ keysOf (pagesBlocks 1 1 pages) := by
  rw [mem_keysOf_pagesBlocks pages 1 1]
  omega

theorem lookup_assembled_tree (pages : List PageData) :
    lookupObj (assembled pages).objects 1 =
      some (.dict (pagesDict (pageIdsFrom 1 pages.length))) := by
  simp only [assembled]
  rw [List.append_assoc, lookupObj_append_of_not_mem _ (not_mem_pagesBlocks_tree pages)]
  simp [lookupObj]

theorem lookup_assembled_catalog (pages : List PageData) :
    lookupObj (assembled pages).objects (4 * pages.length + 2) =
      some (.dict (catalogDict 1)) := by
  simp only [assembled]
  have h1 : (4 * pages.length + 2 : Nat) ∉ keysOf (pagesBlocks 1 1 pages) := by
    rw [mem_keysOf_pagesBlocks pages 1]
    omega
  rw [List.append_assoc, lookupObj_append_of_not_mem _ h1]
  have h2 : ¬ (1 = 4 * pages.length + 2) := by omega
  simp [lookupObj, h2]

theorem lookup_assembled_block (pages : List PageData) (k : Nat) (hk : k < pages.length) :
    lookupObj (assembled pages).objects (4 * k + 2) =
      some (.stream (imageDict (pages.get ⟨k, hk⟩)) (pages.get ⟨k, hk⟩).rgb_data) ∧
    lookupObj (assembled pages).objects (4 * k + 3) =
      some (.stream [] (encodeContent (contentOperations (pages.get ⟨k, hk⟩)))) ∧
    lookupObj (assembled pages).objects (4 * k + 4) =
      some (.dict (resourcesDict (4 * k + 2))) ∧
    lookupObj (assembled pages).objects (4 * k + 5) =
      some (.dict (pageDict 1 (pages.get ⟨k, hk⟩) (4 * k + 4) (4 * k + 3))) := by
  have hres := lookup_pagesBlocks 1 pages 1 k hk
  have hlook : ∀ (id : Nat), (lookupObj (pagesBlocks 1 1 pages) id).isSome = true →
      lookupObj (assembled pages).objects id = lookupObj (pagesBlocks 1 1 pages) id := by
    intro id hsome
    simp only [assembled]
    rw [List.append_assoc, lookupObj_append_left _ hsome]
  have e2 : 1 + 4 * k + 1 = 4 * k + 2 := by omega
  have e3 : 1 + 4 * k + 2 = 4 * k + 3 := by omega
  have e4 : 1 + 4 * k + 3 = 4 * k + 4 := by omega
  have e5 : 1 + 4 * k + 4 = 4 * k + 5 := by omega
  refine ⟨?_, ?_, ?_, ?_⟩
  · rw [← e2, hlook _ (by rw [hres.1]; rfl), hres.1]
  · rw [← e3, hlook _ (by rw [hres.2.1]; rfl), hres.2.1]
  · rw [← e4, hlook _ (by rw [hres.2.2.1]; rfl), hres.2.2.1, e2]
  · rw [← e5, hlook _ (by rw [hres.2.2.2]; rfl), hres.2.2.2, e4, e3]

theorem pageTreeKids_assembled (pages : List PageData) :
    pageTreeKids (assembled pages) =
      some ((pageIdsFrom 1 pages.length).map PdfObject.reference) := by
  have htr : lookupKey (assembled pages).trailer sRoot =
      some (.reference (4 * pages.length + 2)) := by
    simp [assembled, lookupKey]
  have hcat : lookupKey (catalogDict 1) sPages = some (.reference 1) := by
    simp [catalogDict, lookupKey, sType, sPages]
  have htree : lookupKey (pagesDict (pageIdsFrom 1 pages.length)) sKids =
      some (.array ((pageIdsFrom 1 pages.length).map PdfObject.reference)) := by
    simp [pagesDict, lookupKey, sType, sCount, sKids]
  simp only [pageTreeKids, htr, lookup_assembled_catalog pages, hcat,
    lookup_assembled_tree pages, htree]

/-! ### Reference integrity -/

theorem refs_pageBlock (pid m : Nat) (p : PageData) :
    ((pageBlock pid m p).map (fun q => refsOfObject q.2)).flatten =
      [m + 1, pid, m + 3, m + 2] := by
  simp [pageBlock, imageDict, resourcesDict, xobjectsDict, pageDict,
    refsOfObject, refsOfEntries, refsOfList]

theorem mem_refs_pagesBlocks (pid : Nat) (ps : List PageData) :
    ∀ (m r : Nat),
      r ∈ ((pagesBlocks pid m ps).map (fun q => refsOfObject q.2)).flatten →
      r = pid ∨ (m + 1 ≤ r ∧ r ≤ m + 4 * ps.length) := by
  induction ps with
  | nil =>
    intro m r h
    simp [pagesBlocks] at h
  | cons p rest ih =>
    intro m r h
    rw [pagesBlocks, List.map_append, List.flatten_append, List.mem_append,
      refs_pageBlock] at h
    rcases h with h | h
    · simp only [List.mem_cons, List.not_mem_nil, or_false] at h
      rcases h with h | h | h | h
      · right
        simp only [List.length_cons]
        omega
      · left
        exact h
      · right
        simp only [List.length_cons]
        omega
      · right
        simp only [List.length_cons]
        omega
    · rcases ih (m + 4) r h with h | h
      · left
        exact h
      · right
        simp only [List.length_cons]
        omega

theorem refsOfList_map_reference (ids : List Nat) :
    refsOfList (ids.map PdfObject.reference) = ids := by
  induction ids with
  | nil => rfl
  | cons i rest ih =>
    simp [refsOfList, refsOfObject, ih]

theorem docRefs_assembled (pages : List PageData) (r : Nat) :
    r ∈ docRefs (assembled pages) →
      r = 4 * pages.length + 2 ∨
      r ∈ ((pagesBlocks 1 1 pages).map (fun q => refsOfObject q.2)).flatten ∨
      r ∈ pageIdsFrom 1 pages.length ∨
      r = 1 := by
  intro h
  rw [docRefs] at h
  have htr : refsOfEntries (assembled pages).trailer = [4 * pages.length + 2] := rfl
  have hobjs : (assembled pages).objects = pagesBlocks 1 1 pages
      ++ [(1, PdfObject.dict (pagesDict (pageIdsFrom 1 pages.length)))]
      ++ [(4 * pages.length + 2, PdfObject.dict (catalogDict 1))] := rfl
  rw [htr, hobjs, List.map_append, List.map_append, List.flatten_append,
    List.flatten_append] at h
  simp only [List.mem_cons, List.mem_append, List.not_mem_nil, or_false,
    List.map_cons, List.map_nil, List.flatten_cons, List.flatten_nil,
    List.append_nil] at h
  rcases h with h | (h | h) | h
  · left
    exact h
  · right
    left
    exact h
  · right
    right
    left
    have : refsOfObject (PdfObject.dict (pagesDict (pageIdsFrom 1 pages.length))) =
        refsOfList ((pageIdsFrom 1 pages.length).map PdfObject.reference) := by
      simp [pagesDict, refsOfObject, refsOfEntries, refsOfList]
    rw [this, refsOfList_map_reference] at h
    exact h
  · right
    right
    right
    have : refsOfObject (PdfObject.dict (catalogDict 1)) = [1] := rfl
    rw [this] at h
    simpa using h

/-- Every reference in the assembled document resolves to a stored
object. -/
theorem refsResolve_assembled (pages : List PageData) :
    ∀ r ∈ docRefs (assembled pages),
      (lookupObj (assembled pages).objects r).isSome = true := by
  intro r hr
  apply lookupObj_isSome_of_mem
  rw [mem_keysOf_assembled]
  rcases docRefs_assembled pages r hr with h | h | h | h
  · right
    right
    exact h
  · rcases mem_refs_pagesBlocks 1 pages 1 r h with h | h
    · right
      left
      exact h
    · left
      rw [mem_keysOf_pagesBlocks pages 1 r]
      omega
  · rw [mem_pageIdsFrom] at h
    obtain ⟨k, hk, rfl⟩ := h
    left
    rw [mem_keysOf_pagesBlocks pages 1]
    omega
  · right
    left
    exact h

/-! ### The render stage -/

theorem renderResults_length (scale : ℚ) (entries : List InputFile) :
    (renderResults scale entries).length = entries.length := by
  simp [renderResults]

theorem renderResults_get? (scale : ℚ) (entries : List InputFile) (i : Nat) :
    (renderResults scale entries).get? i =
      (entries.get? i).map (fun e => renderEntry scale i e) := by
  simp only [renderResults, List.get?_eq_getElem?, List.getElem?_map,
    List.getElem?_enum]
  cases entries[i]? with
  | none => rfl
  | some e => rfl

/-- Whenever a render task succeeds it yields a page carrying the
task's own input index and the fixed 960 × 720 raster dimensions. -/
theorem renderEntry_ok_shape (scale : ℚ) (i : Nat) (e : InputFile) (p : PageData)
    (h : renderEntry scale i e = .ok p) :
    p.index = i ∧ p.width = 960 ∧ p.height = 720 := by
  unfold renderEntry at h
  cases hr : e.readResult with
  | none => rw [hr] at h; exact absurd h (by simp)
  | some bytes =>
    rw [hr] at h
    by_cases hp : e.parseOk
    · simp only [hp, if_true, Pixmap.new] at h
      rw [if_neg (by omega)] at h
      simp only [Except.ok.injEq] at h
      subst h
      exact ⟨rfl, rfl, rfl⟩
    · rw [if_neg hp] at h
      exact absurd h (by simp)

/-- A failing render task reports an error naming the task's input
file (the pixel-buffer branch cannot fail: 960 and 720 are nonzero). -/
theorem renderEntry_error_file (scale : ℚ) (i : Nat) (e : InputFile)
    (err : RenderError) (h : renderEntry scale i e = .error err) :
    err.file = some e.name := by
  unfold renderEntry at h
  cases hr : e.readResult with
  | none =>
    rw [hr] at h
    simp only [Except.error.injEq] at h
    subst h
    rfl
  | some bytes =>
    rw [hr] at h
    by_cases hp : e.parseOk
    · simp only [hp, if_true, Pixmap.new] at h
      rw [if_neg (by omega)] at h
      exact Except.noConfusion h
    · rw [if_neg hp] at h
      simp only [Except.error.injEq] at h
      subst h
      rfl

theorem length_flatMap_toBytes {α : Type} (f : α → Rgba) (l : List α) :
    (l.flatMap (fun a => (f a).toBytes)).length = 4 * l.length := by
  induction l with
  | nil => rfl
  | cons a rest ih =>
    rw [List.flatMap_cons, List.length_append, ih]
    simp only [Rgba.toBytes, List.length_cons, List.length_nil]
    omega

theorem rgbFromRgba_length :
    ∀ (n : Nat) (l : List Byte), l.length = 4 * n →
      (rgbFromRgba l).length = 3 * n := by
  intro n
  induction n with
  | zero =>
    intro l hl
    have : l = [] := List.eq_nil_of_length_eq_zero (by omega)
    subst this
    rfl
  | succ n ih =>
    intro l hl
    match l with
    | [] => simp at hl
    | [a] => simp at hl; omega
    | [a, b] => simp at hl; omega
    | [a, b, c] => simp at hl; omega
    | a :: b :: c :: d :: rest =>
      have hrest : rest.length = 4 * n := by
        simp only [List.length_cons] at hl
        omega
      have hr := ih rest hrest
      simp only [rgbFromRgba, chunks4, List.flatMap_cons, List.length_append] at hr ⊢
      simp only [List.take, List.length_cons, List.length_nil]
      omega

/-- The rasterizer writes into the pixmap's own buffer: the byte count
is four per pixel, whatever it painted. -/
theorem resvgRender_data_length (e : InputFile) (t : Transform) (pm : Pixmap) :
    (resvgRender e t pm).data.length = 4 * (pm.width * pm.height) := by
  show ((List.range (pm.width * pm.height)).flatMap
    (fun i => (e.paint t.sx i).toBytes)).length = 4 * (pm.width * pm.height)
  rw [length_flatMap_toBytes (fun i => e.paint t.sx i), List.length_range]

theorem rgbFromRgba_resvg_length (e : InputFile) (t : Transform) (pm : Pixmap) :
    (rgbFromRgba (resvgRender e t pm).data).length = 3 * (pm.width * pm.height) := by
  rw [rgbFromRgba_length (pm.width * pm.height) _ (resvgRender_data_length e t pm)]

/-- Size invariant of a successfully rendered page. -/
theorem renderEntry_ok_rgb_length (scale : ℚ) (i : Nat) (e : InputFile) (p : PageData)
    (h : renderEntry scale i e = .ok p) :
    p.rgb_data.length = 960 * 720 * 3 := by
  unfold renderEntry at h
  cases hr : e.readResult with
  | none =>
    rw [hr] at h
    exact Except.noConfusion h
  | some bytes =>
    rw [hr] at h
    by_cases hp : e.parseOk
    · simp only [hp, if_true, Pixmap.new] at h
      rw [if_neg (by omega)] at h
      simp only [Except.ok.injEq] at h
      have hlen := congrArg (fun q : PageData => q.rgb_data.length) h
      simp only at hlen
      rw [← hlen, rgbFromRgba_resvg_length]
      rfl
    · rw [if_neg hp] at h
      exact Except.noConfusion h

/-! ### The parallel collection step -/

theorem sequenceResults_all_ok :
    ∀ {rs : List (Except RenderError PageData)},
      (∀ r ∈ rs, r.isOk = true) →
      ∃ ps, sequenceResults rs = .ok ps ∧ ps.length = rs.length ∧
        ∀ i, i < rs.length → ∃ p, ps.get? i = some p ∧ rs.get? i = some (.ok p) := by
  intro rs
  induction rs with
  | nil =>
    intro _
    exact ⟨[], rfl, rfl, fun i hi => absurd hi (by simp)⟩
  | cons r rest ih =>
    intro h
    cases r with
    | error e =>
      have := h _ (List.mem_cons_self _ _)
      simp [Except.isOk, Except.toBool] at this
    | ok p =>
      obtain ⟨ps, hseq, hlen, hget⟩ := ih (fun r hr => h r (List.mem_cons_of_mem _ hr))
      refine ⟨p :: ps, ?_, by simp [hlen], ?_⟩
      · simp [sequenceResults, hseq, Except.map]
      · intro i hi
        cases i with
        | zero => exact ⟨p, rfl, rfl⟩
        | succ i =>
          simpa using hget i (by simpa using hi)

theorem sequenceResults_error :
    ∀ {rs : List (Except RenderError PageData)},
      (∃ r ∈ rs, r.isOk = false) →
      ∃ e, sequenceResults rs = .error e ∧ Except.error e ∈ rs := by
  intro rs
  induction rs with
  | nil => intro h; simp at h
  | cons r rest ih =>
    intro h
    cases r with
    | error e => exact ⟨e, rfl, List.mem_cons_self _ _⟩
    | ok p =>
      have h' : ∃ r ∈ rest, r.isOk = false := by
        obtain ⟨r, hr, hfalse⟩ := h
        rcases List.mem_cons.mp hr with rfl | hr
        · simp [Except.isOk, Except.toBool] at hfalse
        · exact ⟨r, hr, hfalse⟩
      obtain ⟨e, hseq, hmem⟩ := ih h'
      exact ⟨e, by simp [sequenceResults, hseq, Except.map],
        List.mem_cons_of_mem _ hmem⟩

theorem firstErrorIn_of_all_ok (order : List Nat)
    {results : List (Except RenderError PageData)}
    (h : ∀ r ∈ results, r.isOk = true) :
    firstErrorIn order results = none := by
  unfold firstErrorIn
  rw [List.findSome?_eq_none_iff]
  intro i _
  cases hres : results.get? i with
  | none => simp
  | some r =>
    cases r with
    | ok p => simp
    | error e =>
      have := h _ (List.get?_mem hres)
      simp [Except.isOk, Except.toBool] at this

theorem firstErrorIn_mem {order : List Nat}
    {results : List (Except RenderError PageData)} {e : RenderError}
    (h : firstErrorIn order results = some e) :
    Except.error e ∈ results := by
  unfold firstErrorIn at h
  obtain ⟨i, _, hfe⟩ := List.exists_of_findSome?_eq_some h
  cases hres : results.get? i with
  | none => rw [hres] at hfe; simp at hfe
  | some r =>
    rw [hres] at hfe
    cases r with
    | ok p => simp at hfe
    | error e2 =>
      simp only [Option.some.injEq] at hfe
      subst hfe
      exact List.get?_mem hres

/-- rayon collection, success case: whatever the completion order, the
collected vector is the per-index results in index order. -/
theorem collectOrdered_all_ok (order : List Nat)
    {results : List (Except RenderError PageData)}
    (h : ∀ r ∈ results, r.isOk = true) :
    ∃ ps, collectOrdered order results = .ok ps ∧ ps.length = results.length ∧
      ∀ i, i < results.length → ∃ p, ps.get? i = some p ∧
        results.get? i = some (.ok p) := by
  rw [collectOrdered, firstErrorIn_of_all_ok order h]
  exact sequenceResults_all_ok h

/-- rayon collection, failure case: whatever the completion order, some
failing task's error is returned. -/
theorem collectOrdered_error (order : List Nat)
    {results : List (Except RenderError PageData)}
    (h : ∃ r ∈ results, r.isOk = false) :
    ∃ e, collectOrdered order results = .error e ∧ Except.error e ∈ results := by
  rw [collectOrdered]
  cases hfe : firstErrorIn order results with
  | some e => exact ⟨e, rfl, firstErrorIn_mem hfe⟩
  | none => exact sequenceResults_error h

/-! ### Facts about `run` -/

theorem run_renderedInputs_sub (inp : RunInput)
    (listing : List (Except IoErr InputFile)) (hl : inp.listing = .ok listing) :
    ∀ f ∈ (run inp).renderedInputs,
      ∃ e, e ∈ enumerateSvgs listing ∧ f = e.name := by
  unfold run
  rw [hl]
  by_cases hE : (enumerateSvgs listing).isEmpty = true
  · simp [hE]
  · simp only [Bool.not_eq_true] at hE
    cases hco : collectOrdered inp.order (renderResults inp.scale (enumerateSvgs listing)) with
    | error e =>
      simp only [hE, hco, Bool.false_eq_true, if_false]
      intro f hf
      obtain ⟨e2, he2, rfl⟩ := List.mem_map.mp hf
      exact ⟨e2, he2, rfl⟩
    | ok pages =>
      by_cases hs : inp.saveOk = true
      · simp only [hE, hco, hs, Bool.false_eq_true, if_false, if_true]
        intro f hf
        obtain ⟨e2, he2, rfl⟩ := List.mem_map.mp hf
        exact ⟨e2, he2, rfl⟩
      · simp only [Bool.not_eq_true] at hs
        simp only [hE, hco, hs, Bool.false_eq_true, if_false]
        intro f hf
        obtain ⟨e2, he2, rfl⟩ := List.mem_map.mp hf
        exact ⟨e2, he2, rfl⟩

/-- C6: with an empty set of matching inputs the run fails fast with the
empty-input error: no file is handed to the renderer, no document graph
is built, and nothing is written to the output path. -/
theorem claim6_empty_input (inp : RunInput)
    (listing : List (Except IoErr InputFile))
    (hl : inp.listing = .ok listing) (hempty : enumerateSvgs listing = []) :
    run inp = { exit := .error .emptyInput, written := none,
                renderedInputs := [] } := by
  unfold run
  rw [hl]
  simp [hempty]

/-- C9: a directory entry becomes an input exactly when it was
enumerated successfully and its file extension case-insensitively equals
`svg`; and every file name handed to the render stage is the name of
such an input. -/
theorem claim9_extension_filter (listing : List (Except IoErr InputFile)) :
    (∀ e : InputFile, e ∈ enumerateSvgs listing ↔
      (Except.ok e ∈ listing ∧
        ∃ ext, extension e.name = some ext ∧ strLower ext = sSvg)) ∧
    (∀ inp : RunInput, inp.listing = .ok listing →
      ∀ f ∈ (run inp).renderedInputs,
        ∃ e, e ∈ enumerateSvgs listing ∧ f = e.name) := by
  constructor
  · intro e
    unfold enumerateSvgs
    rw [List.mem_filter, List.mem_filterMap]
    constructor
    · rintro ⟨⟨r, hr, hre⟩, hsvg⟩
      cases r with
      | error err => simp [Except.toOption] at hre
      | ok a =>
        simp only [Except.toOption, Option.some.injEq] at hre
        rw [hre] at hr
        refine ⟨hr, ?_⟩
        unfold hasSvgExtension at hsvg
        cases hext : extension e.name with
        | none => rw [hext] at hsvg; simp at hsvg
        | some ext =>
          rw [hext] at hsvg
          exact ⟨ext, rfl, by simpa using hsvg⟩
    · rintro ⟨hmem, ext, hext, hlow⟩
      refine ⟨⟨Except.ok e, hmem, rfl⟩, ?_⟩
      unfold hasSvgExtension
      rw [hext]
      simpa using hlow
  · intro inp hl
    exact run_renderedInputs_sub inp listing hl

/-- C10: a directory entry whose enumeration failed is silently dropped:
it never becomes an input and the run behaves exactly as if the entry
had not been yielded at all — no error, no abort. -/
theorem claim10_entry_errors_dropped (inp inp2 : RunInput)
    (pre post : List (Except IoErr InputFile)) (err : IoErr)
    (h1 : inp.listing = .ok (pre ++ Except.error err :: post))
    (h2 : inp2 = { inp with listing := .ok (pre ++ post) }) :
    enumerateSvgs (pre ++ Except.error err :: post) = enumerateSvgs (pre ++ post) ∧
    run inp = run inp2 := by
  have henum : enumerateSvgs (pre ++ Except.error err :: post) =
      enumerateSvgs (pre ++ post) := by
    unfold enumerateSvgs
    rw [List.filterMap_append, List.filterMap_append, List.filterMap_cons]
    simp [Except.toOption]
  refine ⟨henum, ?_⟩
  subst h2
  unfold run
  rw [h1]
  simp only [henum]

/-- C1: when every render task succeeds, the collected result — for
every completion order of the parallel tasks — is exactly one page per
input, indexed `0, 1, …, N-1` in input order, page `i` being the render
of input `i`; and the assembled document's page tree lists the pages in
that same order. -/
theorem claim1_order_preservation (scale : ℚ) (entries : List InputFile)
    (order : List Nat)
    (h : ∀ r ∈ renderResults scale entries, r.isOk = true) :
    ∃ pages, collectOrdered order (renderResults scale entries) = .ok pages ∧
      pages.length = entries.length ∧
      pages.map PageData.index = List.range entries.length ∧
      (∀ i e, entries.get? i = some e →
        ∃ p, pages.get? i = some p ∧ renderEntry scale i e = .ok p ∧ p.index = i) ∧
      pageTreeKids (assemble pages) =
        some ((List.range entries.length).map
          (fun k => PdfObject.reference (4 * k + 5))) := by
  obtain ⟨pages, hcol, hlen, hget⟩ := collectOrdered_all_ok order h
  have hlen' : pages.length = entries.length := by
    rw [hlen, renderResults_length]
  have hcorr : ∀ i e, entries.get? i = some e →
      ∃ p, pages.get? i = some p ∧ renderEntry scale i e = .ok p ∧ p.index = i := by
    intro i e he
    have hi : i < entries.length := by
      by_contra hge
      rw [List.get?_eq_none.mpr (by omega)] at he
      exact Option.noConfusion he
    obtain ⟨p, hp, hr⟩ := hget i (by rw [renderResults_length]; exact hi)
    rw [renderResults_get? scale entries i, he] at hr
    simp only [Option.map_some', Option.some.injEq] at hr
    exact ⟨p, hp, hr, (renderEntry_ok_shape scale i e p hr).1⟩
  refine ⟨pages, hcol, hlen', ?_, hcorr, ?_⟩
  · apply List.ext_get?
    intro i
    by_cases hi : i < entries.length
    · obtain ⟨e, he⟩ : ∃ e, entries.get? i = some e := by
        cases hE : entries.get? i with
        | none => rw [List.get?_eq_none] at hE; omega
        | some e => exact ⟨e, rfl⟩
      obtain ⟨p, hp, _, hidx⟩ := hcorr i e he
      rw [List.get?_eq_getElem?, List.getElem?_map, ← List.get?_eq_getElem?, hp, List.get?_eq_getElem?, List.getElem?_range hi]
      simp [hidx]
    · rw [List.get?_eq_none.mpr (by simpa [hlen'] using hi),
        List.get?_eq_none.mpr (by simpa using hi)]
  · rw [assemble_closed, pageTreeKids_assembled, hlen']
    refine congrArg _ ?_
    unfold pageIdsFrom
    rw [List.map_map]
    refine List.map_congr_left (fun k _ => ?_)
    simp only [Function.comp_apply]
    refine congrArg _ (by omega)

/-- C2: if any input fails to read or parse, the whole run exits with a
render error, no document is written, and the reported error carries the
name of a failing input file. -/
theorem claim2_all_or_nothing (inp : RunInput)
    (listing : List (Except IoErr InputFile))
    (hl : inp.listing = .ok listing)
    (i : Nat) (e : InputFile)
    (he : (enumerateSvgs listing).get? i = some e)
    (hfail : (renderEntry inp.scale i e).isOk = false) :
    ∃ err, (run inp).exit = .error (.render err) ∧
      (run inp).written = none ∧
      ∃ j f, (enumerateSvgs listing).get? j = some f ∧
        renderEntry inp.scale j f = .error err ∧
        err.file = some f.name := by
  have hrmem : ∃ r ∈ renderResults inp.scale (enumerateSvgs listing),
      r.isOk = false := by
    refine ⟨renderEntry inp.scale i e, ?_, hfail⟩
    apply List.get?_mem (n := i)
    rw [renderResults_get? inp.scale (enumerateSvgs listing) i, he]
    rfl
  obtain ⟨err, hcol, hmem⟩ := collectOrdered_error inp.order hrmem
  obtain ⟨j, hj⟩ := List.mem_iff_get?.mp hmem
  rw [renderResults_get? inp.scale (enumerateSvgs listing) j] at hj
  obtain ⟨f, hf⟩ : ∃ f, (enumerateSvgs listing).get? j = some f := by
    cases hE : (enumerateSvgs listing).get? j with
    | none => rw [hE] at hj; exact Option.noConfusion hj
    | some f => exact ⟨f, rfl⟩
  rw [hf] at hj
  simp only [Option.map_some', Option.some.injEq] at hj
  have hErr : renderEntry inp.scale j f = .error err := hj
  have hEmpty : (enumerateSvgs listing).isEmpty = false := by
    cases hE : enumerateSvgs listing with
    | nil => rw [hE] at he; exact Option.noConfusion he
    | cons a rest => rfl
  refine ⟨err, ?_, ?_, j, f, hf, hErr, renderEntry_error_file inp.scale j f err hErr⟩
  · unfold run
    rw [hl]
    simp only [hEmpty, Bool.false_eq_true, if_false, hcol]
  · unfold run
    rw [hl]
    simp only [hEmpty, Bool.false_eq_true, if_false, hcol]

/-- C3: in the assembled document the page tree's `Count` equals the
length of its `Kids` array, which equals the number of rendered pages;
the `Kids` entry at position `k` references the page dictionary built
from page `k`; and every reference anywhere in the document resolves to
a stored object. -/
theorem claim3_page_tree_integrity (pages : List PageData) :
    lookupObj (assemble pages).objects 1 =
      some (.dict [(sType, .name sPages),
                   (sCount, .integer pages.length),
                   (sKids, .array ((pageIdsFrom 1 pages.length).map
                     PdfObject.reference))]) ∧
    (pageIdsFrom 1 pages.length).length = pages.length ∧
    (∀ k, k < pages.length →
      (pageIdsFrom 1 pages.length).get? k = some (4 * k + 5)) ∧
    (∀ k (hk : k < pages.length),
      lookupObj (assemble pages).objects (4 * k + 5) =
        some (.dict (pageDict 1 (pages.get ⟨k, hk⟩) (4 * k + 4) (4 * k + 3)))) ∧
    (∀ r ∈ docRefs (assemble pages),
      (lookupObj (assemble pages).objects r).isSome = true) := by
  refine ⟨?_, length_pageIdsFrom 1 pages.length, ?_, ?_, ?_⟩
  · rw [assemble_closed, lookup_assembled_tree]
    simp [pagesDict, length_pageIdsFrom]
  · intro k hk
    rw [getElem?_pageIdsFrom 1 pages.length k hk]
    refine congrArg _ (by omega)
  · intro k hk
    rw [assemble_closed]
    exact (lookup_assembled_block pages k hk).2.2.2
  · rw [assemble_closed]
    exact refsResolve_assembled pages

/-- C4: every successful render yields the fixed 960 × 720 raster: the
dimensions do not depend on the source's intrinsic size (the program
never reads it) nor on the scale option, and the scale enters only as
the uniform diagonal of the rendering transform. -/
theorem claim4_fixed_dimensions (scale scale2 : ℚ) (i : Nat) (e : InputFile)
    (p : PageData) (h : renderEntry scale i e = .ok p) :
    p.width = 960 ∧ p.height = 720 ∧
    (∀ w h2, renderEntry scale i
      { e with intrinsicWidth := w, intrinsicHeight := h2 } =
        renderEntry scale i e) ∧
    Transform.fromScale scale scale =
      { sx := scale, kx := 0, ky := 0, sy := scale, tx := 0, ty := 0 } ∧
    (∀ p2, renderEntry scale2 i e = .ok p2 →
      p2.width = p.width ∧ p2.height = p.height) := by
  obtain ⟨_, hw, hh⟩ := renderEntry_ok_shape scale i e p h
  refine ⟨hw, hh, ?_, rfl, ?_⟩
  · intro w h2
    cases e
    rfl
  · intro p2 h2
    obtain ⟨_, hw2, hh2⟩ := renderEntry_ok_shape scale2 i e p2 h2
    rw [hw2, hh2, hw, hh]
    exact ⟨rfl, rfl⟩

/-- C5: each page's content stream consists of exactly the four
operations save-state, concat-matrix with operands
(width, 0, 0, height, 0, 0) — the page's exact pixel dimensions —
paint `Im1`, restore-state; and the assembled document stores its
encoding as page `k`'s content-stream object. -/
theorem claim5_content_stream (pages : List PageData) (k : Nat)
    (hk : k < pages.length) :
    (contentOperations (pages.get ⟨k, hk⟩)).length = 4 ∧
    contentOperations (pages.get ⟨k, hk⟩) =
      [ { operator := opSave, operands := [] },
        { operator := opConcat,
          operands := [.real (pages.get ⟨k, hk⟩).width, .real 0, .real 0,
                       .real (pages.get ⟨k, hk⟩).height, .real 0, .real 0] },
        { operator := opPaint, operands := [.name sIm1] },
        { operator := opRestore, operands := [] } ] ∧
    lookupObj (assemble pages).objects (4 * k + 3) =
      some (.stream [] (encodeContent (contentOperations (pages.get ⟨k, hk⟩)))) := by
  refine ⟨rfl, rfl, ?_⟩
  rw [assemble_closed]
  exact (lookup_assembled_block pages k hk).2.1

/-- C7: every successfully rendered page's pixel payload holds exactly
`width * height * 3` bytes. -/
theorem claim7_pixel_buffer (scale : ℚ) (i : Nat) (e : InputFile) (p : PageData)
    (h : renderEntry scale i e = .ok p) :
    p.rgb_data.length = p.width * p.height * 3 := by
  obtain ⟨_, hw, hh⟩ := renderEntry_ok_shape scale i e p h
  rw [hw, hh]
  exact renderEntry_ok_rgb_length scale i e p h

/-- C8: page `k`'s dictionary references exactly one resources
dictionary and one content stream (its own); its resources dictionary
exposes exactly one image name, the same name its content stream
paints; and the four objects of a page occupy ids disjoint from every
other page's. -/
theorem claim8_page_isolation (pages : List PageData) (k : Nat)
    (hk : k < pages.length) :
    lookupObj (assemble pages).objects (4 * k + 5) =
      some (.dict (pageDict 1 (pages.get ⟨k, hk⟩) (4 * k + 4) (4 * k + 3))) ∧
    countKey (pageDict 1 (pages.get ⟨k, hk⟩) (4 * k + 4) (4 * k + 3)) sResources = 1 ∧
    countKey (pageDict 1 (pages.get ⟨k, hk⟩) (4 * k + 4) (4 * k + 3)) sContents = 1 ∧
    lookupObj (assemble pages).objects (4 * k + 4) =
      some (.dict (resourcesDict (4 * k + 2))) ∧
    lookupObj (assemble pages).objects (4 * k + 3) =
      some (.stream [] (encodeContent (contentOperations (pages.get ⟨k, hk⟩)))) ∧
    lookupObj (assemble pages).objects (4 * k + 2) =
      some (.stream (imageDict (pages.get ⟨k, hk⟩)) (pages.get ⟨k, hk⟩).rgb_data) ∧
    imageNamesOf (resourcesDict (4 * k + 2)) = [sIm1] ∧
    paintedNames (contentOperations (pages.get ⟨k, hk⟩)) = [sIm1] ∧
    (∀ j, j < pages.length → j ≠ k →
      ∀ id ∈ pageObjectIds k, id ∉ pageObjectIds j) := by
  have hb := lookup_assembled_block pages k hk
  refine ⟨?_, ?_, ?_, ?_, ?_, ?_, ?_, ?_, ?_⟩
  · rw [assemble_closed]
    exact hb.2.2.2
  · simp [countKey, pageDict, sType, sParent, sMediaBox, sResources, sContents]
  · simp [countKey, pageDict, sType, sParent, sMediaBox, sResources, sContents]
  · rw [assemble_closed]
    exact hb.2.2.1
  · rw [assemble_closed]
    exact hb.2.1
  · rw [assemble_closed]
    exact hb.1
  · simp [imageNamesOf, resourcesDict, xobjectsDict, lookupKey]
  · rfl
  · intro j _ hjk id hid
    simp only [pageObjectIds, List.mem_cons, List.not_mem_nil, or_false] at hid ⊢
    omega

/-! ### Concrete inputs used by the witnesses -/

/-- An arbitrary pixel colour. -/
def wRed : Rgba := { r := 200, g := 10, b := 10, a := 255 }

/-- A well-formed SVG input. -/
def wGood : InputFile :=
  { name := "a.svg", readResult := some [60, 115, 118, 103, 62],
    parseOk := true, intrinsicWidth := 100, intrinsicHeight := 50,
    paint := fun _ _ => wRed }

/-- An input whose read fails. -/
def wBad : InputFile :=
  { name := "broken.svg", readResult := none, parseOk := true,
    intrinsicWidth := 3, intrinsicHeight := 3, paint := fun _ _ => wRed }

/-- A non-SVG directory entry. -/
def wNotes : InputFile :=
  { name := "notes.txt", readResult := some [1], parseOk := false,
    intrinsicWidth := 0, intrinsicHeight := 0, paint := fun _ _ => wRed }

/-- A tiny already-rendered page (the assembler never validates). -/
def wPage : PageData :=
  { index := 0, width := 2, height := 1, rgb_data := [9, 9, 9, 8, 8, 8] }

/-- A second tiny page. -/
def wPage2 : PageData :=
  { index := 1, width := 2, height := 1, rgb_data := [1, 2, 3, 4, 5, 6] }

/-- Runs over small concrete directories. -/
def wInpBad : RunInput :=
  { listing := .ok [.ok wBad], scale := 1, order := [], saveOk := true }

def wInpNotes : RunInput :=
  { listing := .ok [.ok wNotes], scale := 1, order := [], saveOk := true }

def wInpMixed : RunInput :=
  { listing := .ok [.ok wGood, .ok wNotes], scale := 1, order := [0],
    saveOk := true }

def wErr : IoErr := { msg := "denied" }

def wInpWithErr : RunInput :=
  { listing := .ok ([] ++ Except.error wErr :: [Except.ok wGood]), scale := 1,
    order := [0], saveOk := true }

def wInpNoErr : RunInput :=
  { listing := .ok ([] ++ [Except.ok wGood]), scale := 1, order := [0],
    saveOk := true }

theorem claim1_witness :
    ∃ pages, collectOrdered [0] (renderResults 1 [wGood]) = .ok pages ∧
      pages.length = [wGood].length ∧
      pages.map PageData.index = List.range [wGood].length ∧
      (∀ i e, [wGood].get? i = some e →
        ∃ p, pages.get? i = some p ∧ renderEntry 1 i e = .ok p ∧ p.index = i) ∧
      pageTreeKids (assemble pages) =
        some ((List.range [wGood].length).map
          (fun k => PdfObject.reference (4 * k + 5))) :=
  claim1_order_preservation 1 [wGood] [0] (by decide)

theorem claim2_witness :
    ∃ err,
      (run wInpBad).exit = .error (.render err) ∧
      (run wInpBad).written = none ∧
      ∃ j f, (enumerateSvgs [.ok wBad]).get? j = some f ∧
        renderEntry 1 j f = .error err ∧ err.file = some f.name :=
  claim2_all_or_nothing wInpBad [.ok wBad] rfl 0 wBad rfl (by decide)

theorem claim3_witness :
    (pageIdsFrom 1 [wPage, wPage2].length).get? 1 = some 9 ∧
    lookupObj (assemble [wPage, wPage2]).objects 9 =
      some (.dict (pageDict 1 wPage2 8 7)) ∧
    (lookupObj (assemble [wPage, wPage2]).objects 1).isSome = true := by
  have h := claim3_page_tree_integrity [wPage, wPage2]
  have hmem : (1 : Nat) ∈ docRefs (assemble [wPage, wPage2]) := by
    rw [assemble_closed]
    decide
  exact ⟨h.2.2.1 1 (by decide), h.2.2.2.1 1 (by decide),
    h.2.2.2.2 1 hmem⟩

theorem claim4_witness :
    ∃ p, renderEntry 1 0 wGood = Except.ok p ∧
      (p.width = 960 ∧ p.height = 720 ∧
       (∀ w h2, renderEntry 1 0
         { wGood with intrinsicWidth := w, intrinsicHeight := h2 } =
           renderEntry 1 0 wGood) ∧
       Transform.fromScale 1 1 =
         { sx := 1, kx := 0, ky := 0, sy := 1, tx := 0, ty := 0 } ∧
       (∀ p2, renderEntry 2 0 wGood = .ok p2 →
         p2.width = p.width ∧ p2.height = p.height)) := by
  obtain ⟨p, hp⟩ : ∃ p, renderEntry 1 0 wGood = Except.ok p := ⟨_, rfl⟩
  exact ⟨p, hp, claim4_fixed_dimensions 1 2 0 wGood p hp⟩

theorem claim5_witness :
    (contentOperations wPage).length = 4 ∧
    contentOperations wPage =
      [ { operator := opSave, operands := [] },
        { operator := opConcat,
          operands := [.real wPage.width, .real 0, .real 0,
                       .real wPage.height, .real 0, .real 0] },
        { operator := opPaint, operands := [.name sIm1] },
        { operator := opRestore, operands := [] } ] ∧
    lookupObj (assemble [wPage]).objects 3 =
      some (.stream [] (encodeContent (contentOperations wPage))) :=
  claim5_content_stream [wPage] 0 (by decide)

theorem claim6_witness :
    run wInpNotes =
      { exit := .error .emptyInput, written := none, renderedInputs := [] } :=
  claim6_empty_input wInpNotes [.ok wNotes] rfl rfl

theorem claim7_witness :
    ∃ p, renderEntry 1 0 wGood = Except.ok p ∧
      p.rgb_data.length = p.width * p.height * 3 := by
  obtain ⟨p, hp⟩ : ∃ p, renderEntry 1 0 wGood = Except.ok p := ⟨_, rfl⟩
  exact ⟨p, hp, claim7_pixel_buffer 1 0 wGood p hp⟩

theorem claim8_witness :
    lookupObj (assemble [wPage, wPage2]).objects 5 =
      some (.dict (pageDict 1 wPage 4 3)) ∧
    countKey (pageDict 1 wPage 4 3) sResources = 1 ∧
    imageNamesOf (resourcesDict 2) = [sIm1] ∧
    paintedNames (contentOperations wPage) = [sIm1] ∧
    (2 : Nat) ∉ pageObjectIds 1 := by
  have h := claim8_page_isolation [wPage, wPage2] 0 (by decide)
  exact ⟨h.1, h.2.1, h.2.2.2.2.2.2.1, h.2.2.2.2.2.2.2.1,
    h.2.2.2.2.2.2.2.2 1 (by decide) (by decide) 2 (by decide)⟩

theorem claim9_witness :
    (wGood ∈ enumerateSvgs [.ok wGood, .ok wNotes] ↔
      (Except.ok wGood ∈
          ([Except.ok wGood, Except.ok wNotes] : List (Except IoErr InputFile)) ∧
        ∃ ext, extension wGood.name = some ext ∧ strLower ext = sSvg)) ∧
    (∀ f ∈ (run wInpMixed).renderedInputs,
      ∃ e, e ∈ enumerateSvgs [.ok wGood, .ok wNotes] ∧ f = e.name) := by
  have h := claim9_extension_filter [.ok wGood, .ok wNotes]
  exact ⟨h.1 wGood, h.2 wInpMixed rfl⟩

theorem claim10_witness :
    enumerateSvgs ([] ++ Except.error wErr :: [Except.ok wGood]) =
      enumerateSvgs ([] ++ [Except.ok wGood]) ∧
    run wInpWithErr = run wInpNoErr :=
  claim10_entry_errors_dropped wInpWithErr wInpNoErr [] [Except.ok wGood]
    wErr rfl rfl

end SvgToPdf
